import Mathlib

/-!
Verification of the transcript summarization and QA program (yts).

The source under scrutiny is `yts/summarize.py` (time-bucketing of
transcript chunks, the summarization run, and persistence of the summary
record) and `yts/__main__.py` (the interactive QA loop and the best-effort
summary-hint read).  Python floats are modelled as rationals, Python lists
as Lean lists (including Python's negative-index wrap-around where the code
can reach it), exceptions as `Except String`, and the file system as an
explicit map from paths to file contents.
-/

namespace YTS

instance exceptDecEq {ε α : Type _} [DecidableEq ε] [DecidableEq α] :
    DecidableEq (Except ε α) := fun a b =>
  match a, b with
  | .error x, .error y =>
      if h : x = y then isTrue (by subst h; rfl)
      else isFalse (fun c => h (by injection c))
  | .ok x, .ok y =>
      if h : x = y then isTrue (by subst h; rfl)
      else isFalse (fun c => h (by injection c))
  | .error _, .ok _ => isFalse (fun c => Except.noConfusion c)
  | .ok _, .error _ => isFalse (fun c => Except.noConfusion c)

/-- Modelled from the spec: the `TranscriptChunkModel` data type lives in
`yts/types.py`, which is not part of the sources under scrutiny; spec §3
records it as `{id: string, text: string, start: float, duration: float}`. -/
structure TranscriptChunkModel where
  id : String
  text : String
  start : Rat
  duration : Rat
deriving Repr, DecidableEq

/-- The bucket index computed for a chunk start time in
`_divide_chunks_by_time`:
`idx = int(tc.start // delta); idx = idx if idx < split_num else split_num`. -/
def assignedIndex (split_num : Nat) (delta : Rat) (start : Rat) : Int :=
  let idx : Int := Int.floor (start / delta)
  if idx < (split_num : Int) then idx else (split_num : Int)

/-- One iteration of the loop in `_divide_chunks_by_time`: place chunk `tc`
into the bucket list.  Mirrors the Python body, including the growth of the
bucket list by one (`splited_chunks.append([])`) when `idx + 1 > len`, and
Python list indexing semantics (negative indices count from the end;
out-of-range raises `IndexError`; float floor-division by zero raises
`ZeroDivisionError`). -/
def bucketStep (split_num : Nat) (delta : Rat)
    (buckets : List (List TranscriptChunkModel)) (tc : TranscriptChunkModel) :
    Except String (List (List TranscriptChunkModel)) :=
  if delta = 0 then .error "ZeroDivisionError"
  else
    let idx : Int := assignedIndex split_num delta tc.start
    let buckets' := if (buckets.length : Int) < idx + 1 then buckets ++ [[]] else buckets
    let j : Int := if 0 ≤ idx then idx else idx + (buckets'.length : Int)
    if h : 0 ≤ j ∧ j.toNat < buckets'.length then
      .ok (buckets'.set j.toNat ((buckets'.get ⟨j.toNat, h.2⟩) ++ [tc]))
    else .error "IndexError"

/-- `YoutubeSummarize._divide_chunks_by_time` (summarize.py lines 117-127):
`total_time = chunks[-1].start + chunks[-1].duration`;
`delta = total_time // split_num`; distribute each chunk into
`splited_chunks[idx]`; drop empty buckets.  `chunks[-1]` on an empty list
raises `IndexError`; `// 0` raises `ZeroDivisionError`. -/
def divideChunksByTime (chunks : List TranscriptChunkModel) (split_num : Nat) :
    Except String (List (List TranscriptChunkModel)) :=
  match chunks.getLast? with
  | none => .error "IndexError"
  | some last =>
    if split_num = 0 then .error "ZeroDivisionError"
    else
      let total_time : Rat := last.start + last.duration
      let delta : Rat := ((Int.floor (total_time / (split_num : Rat)) : Int) : Rat)
      (chunks.foldlM (bucketStep split_num delta) (List.replicate split_num [])).map
        (fun sc => sc.filter (fun b => b.length > 0))

/-- Helper to build a chunk with unit metadata for concrete scenarios. -/
def mkChunk (n : Nat) (s d : Rat) : TranscriptChunkModel :=
  { id := s!"v-{n}", text := s!"t{n}", start := s, duration := d }

end YTS

namespace YTS

/-- The summary record assembled by `YoutubeSummarize.run` (summarize.py
lines 102-107): `{"url": ..., "title": ..., "detail": ..., "concise": ...}`. -/
structure SummaryRecord where
  url : String
  title : String
  detail : List String
  concise : String
deriving Repr, DecidableEq

/-- The detail-summary loop of `run` (summarize.py lines 93-100): invoke the
summarization chain once per bucket, in order, collecting the answers; a
raised chain error aborts the loop.  The first component records the
arguments of the chain invocations actually performed, in order. -/
def detailLoop (chain : List TranscriptChunkModel → Except String String) :
    List (List TranscriptChunkModel) →
    List (List TranscriptChunkModel) × Except String (List String)
  | [] => ([], .ok [])
  | b :: bs =>
    match chain b with
    | .error e => ([b], .error e)
    | .ok s =>
      let r := detailLoop chain bs
      (b :: r.1, r.2.map (fun rest => s :: rest))

/-- `YoutubeSummarize.run` (summarize.py lines 76-114), with the external
summarization chain abstracted as a function `chain` from the documents
submitted (one per chunk) to the combined summary or a provider error, and
the summary file abstracted as `file : Option SummaryRecord`.  Mirrors the
code's order: the concise summary over all chunks first, then the division
into time buckets, then one chain call per bucket, and only after all of
them succeed the write of the record to the file.  Returns the chain-call
trace, the resulting file state, and the outcome. -/
def runModel (chain : List TranscriptChunkModel → Except String String)
    (chunks : List TranscriptChunkModel) (url title : String)
    (file : Option SummaryRecord) :
    List (List TranscriptChunkModel) × Option SummaryRecord ×
      Except String SummaryRecord :=
  match chain chunks with
  | .error e => ([chunks], file, .error e)
  | .ok concise =>
    match divideChunksByTime chunks 5 with
    | .error e => ([chunks], file, .error e)
    | .ok buckets =>
      match detailLoop chain buckets with
      | (calls, .error e) => (chunks :: calls, file, .error e)
      | (calls, .ok detail) =>
        let record : SummaryRecord :=
          { url := url, title := title, detail := detail, concise := concise }
        (chunks :: calls, some record, .ok record)

/-- Python's `str.isspace` character class (the set stripped by
`str.strip()` with no argument): ASCII whitespace `\t\n\v\f\r`, the
separator controls `\x1c`-`\x1f`, space, and the Unicode space code
points. -/
def pyIsSpace (c : Char) : Bool :=
  (0x09 ≤ c.val && c.val ≤ 0x0d) || (0x1c ≤ c.val && c.val ≤ 0x1f) ||
  c.val == 0x20 || c.val == 0x85 || c.val == 0xa0 || c.val == 0x1680 ||
  (0x2000 ≤ c.val && c.val ≤ 0x200a) ||
  c.val == 0x2028 || c.val == 0x2029 || c.val == 0x202f ||
  c.val == 0x205f || c.val == 0x3000

/-- Python `s.strip()` on the character list of `s`: drop leading and
trailing whitespace. -/
def pyStripL (l : List Char) : List Char :=
  ((l.dropWhile pyIsSpace).reverse.dropWhile pyIsSpace).reverse

/-- Python `s.strip()`. -/
def pyStrip (s : String) : String :=
  String.mk (pyStripL s.data)

/-- Outcome of one iteration of the QA loop on one raw input line. -/
inductive QAStep where
  | terminated
  | answered (query answer : String)
deriving Repr, DecidableEq

/-- One iteration of the `while True` loop in `qa` (__main__.py lines
25-31): read a line, strip it, exit the loop on an empty result, otherwise
answer the stripped query once.  The external retrieval/LLM backend is
abstracted as `runQuery`. -/
def qaStep (runQuery : String → String) (raw : String) : QAStep :=
  let query := pyStrip raw
  if query = "" then .terminated else .answered query (runQuery query)

/-- The QA loop run over a finite script of input lines: the list of
(query, answer) pairs produced, paired with `true` iff the loop exited via
the empty-query break. -/
def qaLoop (runQuery : String → String) : List String → List (String × String) × Bool
  | [] => ([], false)
  | raw :: rest =>
    match qaStep runQuery raw with
    | .terminated => ([], true)
    | .answered q a =>
      let r := qaLoop runQuery rest
      ((q, a) :: r.1, r.2)

/-- The summary file path `f'{SUMMARY_STORE_DIR}/{vid}'`, as built
identically in summarize.py line 48 and __main__.py lines 20-21. -/
def summaryPath (dir vid : String) : String :=
  dir ++ "/" ++ vid

/-- Modelled from the spec: the JSON documents exchanged with the Python
`json` module (an external library; spec §4.4 and §6 fix the persisted
layout as one JSON object with fields `url, title, detail (array of
string), concise (string)`).  Strings, arrays and objects suffice for that
layout. -/
inductive Json where
  | str : String → Json
  | arr : List Json → Json
  | obj : List (String × Json) → Json

/-- Lowercase hex digit, as used by `json.dumps` control-character
escapes. -/
def hexDigit (n : Nat) : Char :=
  if n < 10 then Char.ofNat ('0'.toNat + n) else Char.ofNat ('a'.toNat + (n - 10))

/-- The escape applied by `json.dumps` with `ensure_ascii=False` to one
character: only `"`, `\` and control characters below `0x20` are escaped;
everything else — in particular all non-ASCII characters — is emitted
literally. -/
def escapeChar (c : Char) : List Char :=
  if c = '"' then ['\\', '"']
  else if c = '\\' then ['\\', '\\']
  else if c = '\x08' then ['\\', 'b']
  else if c = '\x09' then ['\\', 't']
  else if c = '\x0a' then ['\\', 'n']
  else if c = '\x0c' then ['\\', 'f']
  else if c = '\x0d' then ['\\', 'r']
  else if c.val < 0x20 then
    ['\\', 'u', '0', '0', hexDigit (c.toNat / 16), hexDigit (c.toNat % 16)]
  else [c]

/-- `json.dumps` of a string (surrounding quotes plus escaped body). -/
def dumpStringL (s : String) : List Char :=
  '"' :: (s.data.map escapeChar).flatten ++ ['"']

mutual

/-- `json.dumps(..., ensure_ascii=False)` with the default separators
`", "` and `": "`, on the character level. -/
def dumpsL : Json → List Char
  | .str s => dumpStringL s
  | .arr js => '[' :: dumpsArrL js ++ [']']
  | .obj kvs => '\x7b' :: dumpsObjL kvs ++ ['\x7d']

/-- Array elements joined by `", "`. -/
def dumpsArrL : List Json → List Char
  | [] => []
  | [j] => dumpsL j
  | j :: js => dumpsL j ++ ',' :: ' ' :: dumpsArrL js

/-- Object entries `key: value` joined by `", "`. -/
def dumpsObjL : List (String × Json) → List Char
  | [] => []
  | [(k, v)] => dumpStringL k ++ ':' :: ' ' :: dumpsL v
  | (k, v) :: kvs => dumpStringL k ++ ':' :: ' ' :: dumpsL v ++ ',' :: ' ' :: dumpsObjL kvs

end

/-- `json.dumps(..., ensure_ascii=False)` as a string. -/
def jsonDumps (j : Json) : String :=
  String.mk (dumpsL j)

/-- JSON insignificant whitespace (the class skipped by `json.loads`). -/
def isJsonWs (c : Char) : Bool :=
  c == ' ' || c == '\t' || c == '\n' || c == '\r'

/-- Skip insignificant whitespace. -/
def skipWs (l : List Char) : List Char :=
  l.dropWhile isJsonWs

/-- Value of one hex digit. -/
def hexVal (c : Char) : Option Nat :=
  if '0' ≤ c ∧ c ≤ '9' then some (c.toNat - '0'.toNat)
  else if 'a' ≤ c ∧ c ≤ 'f' then some (c.toNat - 'a'.toNat + 10)
  else if 'A' ≤ c ∧ c ≤ 'F' then some (c.toNat - 'A'.toNat + 10)
  else none

/-- The single-character JSON string escapes. -/
def unescapeChar (c : Char) : Option Char :=
  if c = '"' then some '"'
  else if c = '\\' then some '\\'
  else if c = '/' then some '/'
  else if c = 'b' then some '\x08'
  else if c = 'f' then some '\x0c'
  else if c = 'n' then some '\x0a'
  else if c = 'r' then some '\x0d'
  else if c = 't' then some '\x09'
  else none

/-- Parse the body of a JSON string (after the opening quote), returning
the decoded characters and the input following the closing quote. -/
def parseStringAux : List Char → Option (List Char × List Char)
  | [] => none
  | c :: rest =>
    if c = '"' then some ([], rest)
    else if c = '\\' then
      match rest with
      | [] => none
      | e :: rest' =>
        if e = 'u' then
          match rest' with
          | h1 :: h2 :: h3 :: h4 :: rest2 =>
            match hexVal h1, hexVal h2, hexVal h3, hexVal h4 with
            | some a, some b, some c2, some d =>
              (parseStringAux rest2).map
                (fun r => (Char.ofNat (((a * 16 + b) * 16 + c2) * 16 + d) :: r.1, r.2))
            | _, _, _, _ => none
          | _ => none
        else
          match unescapeChar e with
          | some u => (parseStringAux rest').map (fun r => (u :: r.1, r.2))
          | none => none
    else (parseStringAux rest).map (fun r => (c :: r.1, r.2))

mutual

/-- Fuel-bounded parser for the JSON value grammar produced by `dumpsL`
(strings, arrays, objects), modelling `json.loads`. -/
def parseValue : Nat → List Char → Option (Json × List Char)
  | 0, _ => none
  | fuel + 1, l =>
    match skipWs l with
    | '"' :: rest => (parseStringAux rest).map (fun r => (.str (String.mk r.1), r.2))
    | '[' :: rest =>
      match skipWs rest with
      | ']' :: r => some (.arr [], r)
      | _ => (parseArrItems fuel rest).map (fun r => (.arr r.1, r.2))
    | '\x7b' :: rest =>
      match skipWs rest with
      | '\x7d' :: r => some (.obj [], r)
      | _ => (parseObjItems fuel rest).map (fun r => (.obj r.1, r.2))
    | _ => none

/-- Parse one-or-more comma-separated array elements up to `]`. -/
def parseArrItems : Nat → List Char → Option (List Json × List Char)
  | 0, _ => none
  | fuel + 1, l =>
    match parseValue fuel l with
    | none => none
    | some (j, r) =>
      match skipWs r with
      | ',' :: r2 => (parseArrItems fuel r2).map (fun r3 => (j :: r3.1, r3.2))
      | ']' :: r2 => some ([j], r2)
      | _ => none

/-- Parse one-or-more comma-separated `key: value` entries up to the
closing brace. -/
def parseObjItems : Nat → List Char → Option (List (String × Json) × List Char)
  | 0, _ => none
  | fuel + 1, l =>
    match skipWs l with
    | '"' :: rest =>
      match parseStringAux rest with
      | none => none
      | some (k, r) =>
        match skipWs r with
        | ':' :: r2 =>
          match parseValue fuel r2 with
          | none => none
          | some (v, r3) =>
            match skipWs r3 with
            | ',' :: r4 =>
              (parseObjItems fuel r4).map
                (fun r5 => ((String.mk k, v) :: r5.1, r5.2))
            | '\x7d' :: r4 => some ([(String.mk k, v)], r4)
            | _ => none
        | _ => none
    | _ => none

end

/-- `json.loads` on a whole document: parse one value and require only
whitespace to remain. -/
def jsonParse (s : String) : Option Json :=
  match parseValue (s.length + 1) s.data with
  | some (j, r) => if skipWs r = [] then some j else none
  | none => none

/-- The JSON document written by `run` (summarize.py lines 102-112): an
object with the keys `url, title, detail, concise` in that insertion
order. -/
def encodeSummary (r : SummaryRecord) : Json :=
  .obj [("url", .str r.url), ("title", .str r.title),
        ("detail", .arr (r.detail.map Json.str)), ("concise", .str r.concise)]

/-- Subscripting a parsed JSON object by key, as `summary["concise"]`
does on the dict produced by `json.load`: the last binding wins (Python
dict construction overwrites duplicate keys). -/
def jLookup (kvs : List (String × Json)) (k : String) : Option Json :=
  ((kvs.filter (fun kv => kv.1 = k)).getLast?).map (fun kv => kv.2)

/-- Read a JSON string back as a Lean string. -/
def asStr : Json → Option String
  | .str s => some s
  | _ => none

/-- Read a JSON array of strings back as a string list. -/
def allStr : List Json → Option (List String)
  | [] => some []
  | .str s :: js => (allStr js).map (fun rest => s :: rest)
  | _ => none

/-- Recover a `SummaryRecord` from its JSON document (the inverse reading
of the layout fixed in spec §4.4/§6). -/
def decodeSummary : Json → Option SummaryRecord
  | .obj kvs =>
    match (jLookup kvs "url").bind asStr, (jLookup kvs "title").bind asStr,
        jLookup kvs "detail", (jLookup kvs "concise").bind asStr with
    | some u, some t, some (.arr ds), some c =>
      (allStr ds).map (fun detail => ⟨u, t, detail, c⟩)
    | _, _, _, _ => none
  | _ => none

/-- `open(self.summary_file, "w")` followed by `f.write(...)`: the file at
`path` now holds exactly `content`; every other file is untouched
(summarize.py lines 111-112). -/
def saveStore (fs : String → Option String) (path content : String) :
    String → Option String :=
  fun p => if p = path then some content else fs p

/-- The read side in `qa` (__main__.py lines 20-22): if the file exists,
`json.load` it. -/
def loadStore (fs : String → Option String) (path : String) : Option Json :=
  (fs path).bind jsonParse

/-- The summary-hint block of `qa` (__main__.py lines 20-23): if the
summary file does not exist, do nothing (no hint, no error); if it exists,
`json.load` it (raising on malformed JSON) and take `summary["concise"]`
(raising `KeyError` on a missing key, `TypeError` when the document is not
an object). -/
def qaHint (fs : String → Option String) (dir vid : String) :
    Except String (Option Json) :=
  match fs (summaryPath dir vid) with
  | none => .ok none
  | some contents =>
    match jsonParse contents with
    | none => .error "JSONDecodeError"
    | some (.obj kvs) =>
      match jLookup kvs "concise" with
      | some v => .ok (some v)
      | none => .error "KeyError"
    | some _ => .error "TypeError"

/-- Six chunks whose starts step by exactly the bucket width 18 (total time
90, `split_num = 5`): the final chunk, at start 90, lands one past the
nominal last bucket. -/
def overflowChunks : List TranscriptChunkModel :=
  [mkChunk 0 0 0, mkChunk 1 18 0, mkChunk 2 36 0,
   mkChunk 3 54 0, mkChunk 4 72 0, mkChunk 5 90 0]

/-- Ten chunks of 9 seconds each covering start times 0..90 (total time
90), the spec §8 bucketing scenario. -/
def chunks10 : List TranscriptChunkModel :=
  [mkChunk 0 0 9, mkChunk 1 9 9, mkChunk 2 18 9, mkChunk 3 27 9,
   mkChunk 4 36 9, mkChunk 5 45 9, mkChunk 6 54 9, mkChunk 7 63 9,
   mkChunk 8 72 9, mkChunk 9 81 9]

end YTS

namespace YTS

/-! ### Helper lemmas about stripping -/

theorem dropWhile_eq_self_of_head {α : Type _} (p : α → Bool) (l : List α)
    (h : ∀ c, l.head? = some c → p c = false) : l.dropWhile p = l := by
  cases l with
  | nil => rfl
  | cons a l =>
    have ha := h a rfl
    simp [List.dropWhile_cons, ha]

theorem head?_dropWhile {α : Type _} (p : α → Bool) (l : List α) (c : α)
    (h : (l.dropWhile p).head? = some c) : p c = false := by
  induction l with
  | nil => simp at h
  | cons a l ih =>
    rw [List.dropWhile_cons] at h
    by_cases hp : p a
    · simp [hp] at h
      exact ih h
    · simp [hp] at h
      subst h
      simpa using hp

theorem getLast?_dropWhile {α : Type _} (p : α → Bool) (l : List α)
    (h : l.dropWhile p ≠ []) : (l.dropWhile p).getLast? = l.getLast? := by
  induction l with
  | nil => simp at h
  | cons a l ih =>
    rw [List.dropWhile_cons] at h ⊢
    by_cases hp : p a
    · simp only [hp, if_true] at h ⊢
      rw [ih h]
      have hl : l ≠ [] := by
        intro hnil
        subst hnil
        simp at h
      cases l with
      | nil => simp at hl
      | cons b l => simp [List.getLast?_cons_cons]
    · simp [hp]

theorem pyStripL_eq_nil (l : List Char) (h : ∀ c ∈ l, pyIsSpace c = true) :
    pyStripL l = [] := by
  unfold pyStripL
  have h1 : l.dropWhile pyIsSpace = [] := List.dropWhile_eq_nil_iff.2 h
  simp [h1]

theorem pyStripL_eq_self (l : List Char)
    (h1 : ∀ c, l.head? = some c → pyIsSpace c = false)
    (h2 : ∀ c, l.getLast? = some c → pyIsSpace c = false) : pyStripL l = l := by
  unfold pyStripL
  rw [dropWhile_eq_self_of_head _ _ h1]
  rw [dropWhile_eq_self_of_head]
  · exact List.reverse_reverse l
  · intro c hc
    rw [List.head?_reverse] at hc
    exact h2 c hc

theorem pyStripL_idem (l : List Char) : pyStripL (pyStripL l) = pyStripL l := by
  by_cases hs : pyStripL l = []
  · rw [hs]; rfl
  · apply pyStripL_eq_self
    · intro c hc
      unfold pyStripL at hc hs
      rw [List.head?_reverse] at hc
      rw [getLast?_dropWhile] at hc
      · rw [List.getLast?_reverse] at hc
        exact head?_dropWhile _ _ _ hc
      · intro hnil
        apply hs
        rw [hnil]
        rfl
    · intro c hc
      unfold pyStripL at hc
      rw [List.getLast?_reverse] at hc
      exact head?_dropWhile _ _ _ hc

theorem pyStrip_idem (s : String) : pyStrip (pyStrip s) = pyStrip s := by
  unfold pyStrip
  rw [pyStripL_idem]

end YTS

namespace YTS

/-! ### C1 -/

/-- C1: for every non-empty chunk list and `split_num ≥ 1` with bucket
width `delta ≥ 1`, the bucket index `_divide_chunks_by_time` assigns to
each chunk equals `min(floor(chunk.start / delta), split_num)`; moreover
on a concrete input (six chunks at starts 0,18,...,90, total time 90,
bucket width 18) the last chunk receives index `split_num = 5`, one past
the nominal last bucket `split_num - 1`, and that overflow bucket appears
in the output as a sixth bucket. -/
theorem C1_bucket_index_clamp (chunks : List TranscriptChunkModel)
    (split_num : Nat) (delta : Rat)
    (_hne : chunks ≠ []) (_hs : 1 ≤ split_num) (_hd : 1 ≤ delta) :
    (∀ tc ∈ chunks,
      assignedIndex split_num delta tc.start
        = min (Int.floor (tc.start / delta)) (split_num : Int)) ∧
    assignedIndex 5 18 (90 : Rat) = 5 ∧
    divideChunksByTime overflowChunks 5
      = .ok [[mkChunk 0 0 0], [mkChunk 1 18 0], [mkChunk 2 36 0],
             [mkChunk 3 54 0], [mkChunk 4 72 0], [mkChunk 5 90 0]] := by
  refine ⟨?_, ?_, ?_⟩
  · intro tc _
    unfold assignedIndex
    rcases lt_or_le (Int.floor (tc.start / delta)) (split_num : Int) with h | h
    · simp [h, min_eq_left (le_of_lt h)]
    · simp [not_lt.2 h, min_eq_right h]
  · with_unfolding_all rfl
  · with_unfolding_all rfl

/-- Witness for C1 at the concrete overflow input. -/
theorem C1_bucket_index_clamp_witness :
    (∀ tc ∈ overflowChunks,
      assignedIndex 5 18 tc.start
        = min (Int.floor (tc.start / 18)) (5 : Int)) ∧
    assignedIndex 5 18 (90 : Rat) = 5 ∧
    divideChunksByTime overflowChunks 5
      = .ok [[mkChunk 0 0 0], [mkChunk 1 18 0], [mkChunk 2 36 0],
             [mkChunk 3 54 0], [mkChunk 4 72 0], [mkChunk 5 90 0]] :=
  C1_bucket_index_clamp overflowChunks 5 18 (by simp [overflowChunks])
    (by norm_num) (by norm_num)

/-! ### C7 -/

/-- C7: when the summary file for the video id does not exist, the QA
entry hint read does nothing and raises nothing: it is treated as "no
summary available" (`.ok none`), not an error. -/
theorem C7_missing_summary_silent (fs : String → Option String)
    (dir vid : String) (h : fs (summaryPath dir vid) = none) :
    qaHint fs dir vid = .ok none := by
  unfold qaHint
  rw [h]

/-- Witness for C7 on an empty file system. -/
theorem C7_missing_summary_silent_witness :
    qaHint (fun _ => none) "store" "vid0" = .ok none :=
  C7_missing_summary_silent (fun _ => none) "store" "vid0" rfl

/-! ### C8 -/

/-- C8: the QA loop's transition behaviour from the awaiting state:
an input whose stripped form is empty terminates the loop with no further
answers; a non-empty input produces exactly one (query, answer) pair and
the loop returns to awaiting on the remaining script (in particular it
never terminates on a non-empty query: the exit flag is that of the rest
of the script). -/
theorem C8_qa_loop_state_machine (runQuery : String → String)
    (raw : String) (rest : List String) :
    qaLoop runQuery (raw :: rest)
      = if pyStrip raw = "" then ([], true)
        else ((pyStrip raw, runQuery (pyStrip raw)) :: (qaLoop runQuery rest).1,
              (qaLoop runQuery rest).2) := by
  by_cases h : pyStrip raw = "" <;> simp [qaLoop, qaStep, h]

/-! ### C10 -/

/-- C10: the QA loop strips each raw input of leading and trailing
(Python) whitespace before the emptiness check: an input consisting only
of whitespace terminates the loop, and any query that reaches answering
is exactly the stripped input — in particular stripping it again changes
nothing and it is non-empty. -/
theorem C10_whitespace_stripped (runQuery : String → String) (raw : String) :
    ((∀ c ∈ raw.data, pyIsSpace c = true) →
      qaStep runQuery raw = .terminated) ∧
    (∀ q a, qaStep runQuery raw = .answered q a →
      q = pyStrip raw ∧ pyStrip q = q ∧ q ≠ "") := by
  constructor
  · intro h
    unfold qaStep
    have : pyStrip raw = "" := by
      unfold pyStrip
      rw [pyStripL_eq_nil raw.data h]
    simp [this]
  · intro q a h
    unfold qaStep at h
    by_cases he : pyStrip raw = ""
    · rw [if_pos he] at h
      cases h
    · rw [if_neg he] at h
      cases h
      exact ⟨rfl, pyStrip_idem raw, he⟩

/-- Witness for C10 on the whitespace-only input and on a padded query. -/
theorem C10_whitespace_stripped_witness :
    ((∀ c ∈ ("  \t " : String).data, pyIsSpace c = true) →
      qaStep (fun q => q ++ "!") "  \t " = .terminated) ∧
    (∀ q a, qaStep (fun q => q ++ "!") "  \t " = .answered q a →
      q = pyStrip "  \t " ∧ pyStrip q = q ∧ q ≠ "") :=
  C10_whitespace_stripped (fun q => q ++ "!") "  \t "

end YTS

namespace YTS

/-! ### The run model: helper lemmas -/

theorem detailLoop_ok (chain : List TranscriptChunkModel → Except String String)
    (bs : List (List TranscriptChunkModel)) (ds : List String)
    (h : (detailLoop chain bs).2 = .ok ds) :
    (detailLoop chain bs).1 = bs ∧ ds.length = bs.length ∧
    ∀ i (hi : i < bs.length) (hi' : i < ds.length),
      chain (bs.get ⟨i, hi⟩) = .ok (ds.get ⟨i, hi'⟩) := by
  induction bs generalizing ds with
  | nil =>
    simp [detailLoop] at h
    subst h
    exact ⟨rfl, rfl, fun i hi _ => absurd hi (Nat.not_lt_zero i)⟩
  | cons b bs ih =>
    rcases hc : chain b with e | s
    · simp [detailLoop, hc] at h
    · rcases hl : (detailLoop chain bs).2 with e2 | ds'
      · simp [detailLoop, hc, hl, Except.map] at h
      · simp [detailLoop, hc, hl, Except.map] at h
        subst h
        obtain ⟨h1, h2, h3⟩ := ih ds' hl
        refine ⟨by simp [detailLoop, hc, h1], by simp [h2], ?_⟩
        intro i hi hi'
        cases i with
        | zero => simpa using hc
        | succ i =>
          exact h3 i (Nat.lt_of_succ_lt_succ hi) (Nat.lt_of_succ_lt_succ hi')

theorem detailLoop_ok_mem (chain : List TranscriptChunkModel → Except String String)
    (bs : List (List TranscriptChunkModel)) (ds : List String)
    (h : (detailLoop chain bs).2 = .ok ds) :
    ∀ c ∈ bs, ∃ s, chain c = .ok s := by
  induction bs generalizing ds with
  | nil => intro c hc; simp at hc
  | cons b bs ih =>
    rcases hc : chain b with e | s
    · simp [detailLoop, hc] at h
    · rcases hl : (detailLoop chain bs).2 with e2 | ds'
      · simp [detailLoop, hc, hl, Except.map] at h
      · intro c hcm
        rcases List.mem_cons.1 hcm with rfl | hm
        · exact ⟨s, hc⟩
        · exact ih ds' hl c hm

theorem runModel_file_eq_of_error
    (chain : List TranscriptChunkModel → Except String String)
    (chunks : List TranscriptChunkModel) (url title : String)
    (file : Option SummaryRecord) (e : String)
    (h : (runModel chain chunks url title file).2.2 = .error e) :
    (runModel chain chunks url title file).2.1 = file := by
  rcases hc : chain chunks with e2 | concise
  · simp [runModel, hc]
  · rcases hd : divideChunksByTime chunks 5 with e2 | buckets
    · simp [runModel, hc, hd]
    · rcases hl : detailLoop chain buckets with ⟨calls, exc⟩
      rcases exc with e2 | detail
      · simp [runModel, hc, hd, hl]
      · simp [runModel, hc, hd, hl] at h

theorem runModel_ok_calls
    (chain : List TranscriptChunkModel → Except String String)
    (chunks : List TranscriptChunkModel) (url title : String)
    (file : Option SummaryRecord) (r : SummaryRecord)
    (h : (runModel chain chunks url title file).2.2 = .ok r) :
    ∀ c ∈ (runModel chain chunks url title file).1, ∃ s, chain c = .ok s := by
  rcases hc : chain chunks with e2 | concise
  · simp [runModel, hc] at h
  · rcases hd : divideChunksByTime chunks 5 with e2 | buckets
    · simp [runModel, hc, hd] at h
    · rcases hl : detailLoop chain buckets with ⟨calls, exc⟩
      rcases exc with e2 | detail
      · simp [runModel, hc, hd, hl] at h
      · intro c hcm
        simp [runModel, hc, hd, hl] at hcm
        rcases hcm with rfl | hm
        · exact ⟨concise, hc⟩
        · have h1 := (detailLoop_ok chain buckets detail (by rw [hl])).1
          rw [hl] at h1
          exact detailLoop_ok_mem chain buckets detail (by rw [hl]) c (by rw [← h1]; exact hm)

/-! ### C4 -/

/-- C4: whenever some chain invocation actually performed during a run
fails, the run raises (returns an error) and the summary file is neither
created nor updated: the file state after the run is exactly the file
state before it, so the concise summary already computed in memory is
discarded and no partial record is persisted. -/
theorem C4_no_partial_record
    (chain : List TranscriptChunkModel → Except String String)
    (chunks : List TranscriptChunkModel) (url title : String)
    (file : Option SummaryRecord)
    (h : ∃ c ∈ (runModel chain chunks url title file).1, ∃ e, chain c = .error e) :
    (∃ e, (runModel chain chunks url title file).2.2 = .error e) ∧
    (runModel chain chunks url title file).2.1 = file := by
  rcases hr : (runModel chain chunks url title file).2.2 with e | r
  · exact ⟨⟨e, rfl⟩, runModel_file_eq_of_error chain chunks url title file e hr⟩
  · exfalso
    obtain ⟨c, hcm, e, he⟩ := h
    obtain ⟨s, hs⟩ := runModel_ok_calls chain chunks url title file r hr c hcm
    rw [he] at hs
    cases hs

/-- The third of the five time buckets of `chunks10`. -/
def bucket3 : List TranscriptChunkModel := [mkChunk 4 36 9, mkChunk 5 45 9]

/-- A chain that raises a provider error exactly on the third bucket and
succeeds everywhere else. -/
def chainFail : List TranscriptChunkModel → Except String String :=
  fun l => if l = bucket3 then .error "RateLimitError" else .ok "S"

/-- A previously stored record, to exhibit that a failing run leaves the
file untouched. -/
def prevRecord : SummaryRecord :=
  { url := "u0", title := "t0", detail := ["d0"], concise := "c0" }

/-- Witness for C4: running over `chunks10` with a chain that fails on
bucket 3 of 5 (after the concise summary and two detail buckets
succeeded) raises and leaves the previously stored record in place. -/
theorem C4_no_partial_record_witness :
    (∃ e, (runModel chainFail chunks10 "u" "t" (some prevRecord)).2.2 = .error e) ∧
    (runModel chainFail chunks10 "u" "t" (some prevRecord)).2.1 = some prevRecord := by
  apply C4_no_partial_record
  refine ⟨bucket3, ?_, "RateLimitError", by with_unfolding_all rfl⟩
  have ht : (runModel chainFail chunks10 "u" "t" (some prevRecord)).1
      = [chunks10, [mkChunk 0 0 9, mkChunk 1 9 9],
         [mkChunk 2 18 9, mkChunk 3 27 9], bucket3] := by
    with_unfolding_all rfl
  rw [ht]
  simp

/-! ### C5 -/

/-- C5: on every successful run, the detail summary contains exactly one
string per returned (non-empty) time bucket — the i-th detail string is
the chain's answer on the i-th bucket — and the chain-invocation trace is
exactly the concise call over all chunks followed by one call per bucket
in ascending bucket order. -/
theorem C5_detail_per_bucket
    (chain : List TranscriptChunkModel → Except String String)
    (chunks : List TranscriptChunkModel) (url title : String)
    (file : Option SummaryRecord)
    (buckets : List (List TranscriptChunkModel)) (r : SummaryRecord)
    (hb : divideChunksByTime chunks 5 = .ok buckets)
    (h : (runModel chain chunks url title file).2.2 = .ok r) :
    r.detail.length = buckets.length ∧
    (∀ i (hi : i < buckets.length) (hi' : i < r.detail.length),
      chain (buckets.get ⟨i, hi⟩) = .ok (r.detail.get ⟨i, hi'⟩)) ∧
    (runModel chain chunks url title file).1 = chunks :: buckets := by
  rcases hc : chain chunks with e2 | concise
  · simp [runModel, hc] at h
  · rcases hl : detailLoop chain buckets with ⟨calls, exc⟩
    rcases exc with e2 | detail
    · simp [runModel, hc, hb, hl] at h
    · simp [runModel, hc, hb, hl] at h
      obtain ⟨h1, h2, h3⟩ := detailLoop_ok chain buckets detail (by rw [hl])
      rw [hl] at h1
      subst h
      refine ⟨h2, h3, ?_⟩
      simp [runModel, hc, hb, hl]
      exact h1

/-- A chain that always succeeds with the same summary. -/
def chainOk : List TranscriptChunkModel → Except String String :=
  fun _ => .ok "S"

/-- The five buckets `_divide_chunks_by_time` returns on `chunks10`. -/
def buckets5 : List (List TranscriptChunkModel) :=
  [[mkChunk 0 0 9, mkChunk 1 9 9], [mkChunk 2 18 9, mkChunk 3 27 9],
   [mkChunk 4 36 9, mkChunk 5 45 9], [mkChunk 6 54 9, mkChunk 7 63 9],
   [mkChunk 8 72 9, mkChunk 9 81 9]]

/-- Witness for C5 on `chunks10` with an always-succeeding chain. -/
theorem C5_detail_per_bucket_witness :
    (SummaryRecord.mk "u" "t" ["S", "S", "S", "S", "S"] "S").detail.length
        = buckets5.length ∧
    (∀ i (hi : i < buckets5.length)
        (hi' : i < (SummaryRecord.mk "u" "t" ["S", "S", "S", "S", "S"] "S").detail.length),
      chainOk (buckets5.get ⟨i, hi⟩)
        = .ok ((SummaryRecord.mk "u" "t" ["S", "S", "S", "S", "S"] "S").detail.get ⟨i, hi'⟩)) ∧
    (runModel chainOk chunks10 "u" "t" none).1 = chunks10 :: buckets5 :=
  C5_detail_per_bucket chainOk chunks10 "u" "t" none buckets5
    (SummaryRecord.mk "u" "t" ["S", "S", "S", "S", "S"] "S")
    (by with_unfolding_all rfl) (by with_unfolding_all rfl)

end YTS

namespace YTS

/-! ### Bucketing: conservation lemmas -/

theorem flatten_set_append {α : Type _} (l : List (List α)) :
    ∀ (k : Nat) (hk : k < l.length) (a : α),
    List.Perm ((l.set k ((l.get ⟨k, hk⟩) ++ [a])).flatten) (a :: l.flatten) := by
  induction l with
  | nil => intro k hk a; simp at hk
  | cons x xs ih =>
    intro k hk a
    cases k with
    | zero =>
      show List.Perm ((x ++ [a]) :: xs).flatten (a :: (x :: xs).flatten)
      rw [List.flatten_cons, List.flatten_cons]
      have hx : (x ++ [a]) ++ xs.flatten = x ++ a :: xs.flatten := by simp
      rw [hx]
      exact List.perm_middle
    | succ k =>
      have hk' : k < xs.length := Nat.lt_of_succ_lt_succ hk
      show List.Perm
        ((x :: xs.set k ((xs.get ⟨k, hk'⟩) ++ [a])).flatten) (a :: (x :: xs).flatten)
      rw [List.flatten_cons, List.flatten_cons]
      exact ((ih k hk' a).append_left x).trans List.perm_middle

theorem bucketStep_ok_perm (split_num : Nat) (delta : Rat)
    (b : List (List TranscriptChunkModel)) (tc : TranscriptChunkModel)
    (b' : List (List TranscriptChunkModel))
    (h : bucketStep split_num delta b tc = .ok b') :
    List.Perm b'.flatten (tc :: b.flatten) := by
  unfold bucketStep at h
  by_cases hd : delta = 0
  · rw [if_pos hd] at h
    cases h
  · rw [if_neg hd] at h
    simp only [] at h
    set idx : Int := assignedIndex split_num delta tc.start with hidx
    set b2 := if (b.length : Int) < idx + 1 then b ++ [[]] else b with hb2
    set j : Int := if 0 ≤ idx then idx else idx + (b2.length : Int) with hj
    by_cases hcond : 0 ≤ j ∧ j.toNat < b2.length
    · rw [dif_pos hcond] at h
      injection h with h
      subst h
      have hperm := flatten_set_append b2 j.toNat hcond.2 tc
      refine hperm.trans ?_
      have hflat : b2.flatten = b.flatten := by
        rw [hb2]
        by_cases hg : (b.length : Int) < idx + 1
        · rw [if_pos hg, List.flatten_append]
          simp
        · rw [if_neg hg]
      rw [hflat]
    · rw [dif_neg hcond] at h
      cases h

theorem foldlM_bucketStep_perm (split_num : Nat) (delta : Rat) :
    ∀ (l : List TranscriptChunkModel) (init final : List (List TranscriptChunkModel)),
    List.foldlM (bucketStep split_num delta) init l = .ok final →
    List.Perm final.flatten (l ++ init.flatten) := by
  intro l
  induction l with
  | nil =>
    intro init final h
    simp only [List.foldlM] at h
    rw [show (pure init : Except String (List (List TranscriptChunkModel)))
        = Except.ok init from rfl] at h
    injection h with h
    subst h
    simp
  | cons c cs ih =>
    intro init final h
    rw [List.foldlM_cons] at h
    rcases hs : bucketStep split_num delta init c with e | b1
    · rw [hs] at h
      cases h
    · rw [hs] at h
      have hbind : (Except.ok b1 >>= fun b' =>
          List.foldlM (bucketStep split_num delta) b' cs)
          = List.foldlM (bucketStep split_num delta) b1 cs := rfl
      rw [hbind] at h
      have h1 := bucketStep_ok_perm split_num delta init c b1 hs
      have h2 := ih b1 final h
      refine h2.trans ?_
      refine ((h1.append_left cs).trans ?_)
      exact List.perm_middle

theorem flatten_filter_pos {α : Type _} (l : List (List α)) :
    (l.filter (fun b => b.length > 0)).flatten = l.flatten := by
  induction l with
  | nil => rfl
  | cons x xs ih =>
    by_cases hx : x.length > 0
    · rw [List.filter_cons_of_pos (by simpa using hx), List.flatten_cons,
        List.flatten_cons, ih]
    · have hnil : x = [] := by
        cases x with
        | nil => rfl
        | cons a l => simp at hx
      rw [List.filter_cons_of_neg (by simpa using hx), List.flatten_cons, ih,
        hnil, List.nil_append]

theorem flatten_replicate_nil {α : Type _} (n : Nat) :
    (List.replicate n ([] : List α)).flatten = [] := by
  induction n with
  | zero => rfl
  | succ n ih => rw [List.replicate_succ, List.flatten_cons, ih, List.nil_append]

theorem divide_ok_perm (chunks : List TranscriptChunkModel) (split_num : Nat)
    (buckets : List (List TranscriptChunkModel))
    (h : divideChunksByTime chunks split_num = .ok buckets) :
    List.Perm buckets.flatten chunks := by
  unfold divideChunksByTime at h
  rcases hg : chunks.getLast? with _ | last
  · rw [hg] at h
    cases h
  · rw [hg] at h
    dsimp only [] at h
    by_cases hz : split_num = 0
    · rw [if_pos hz] at h
      cases h
    · rw [if_neg hz] at h
      rcases hf : List.foldlM
          (bucketStep split_num
            ((Int.floor ((last.start + last.duration) / (split_num : Rat)) : Int) : Rat))
          (List.replicate split_num ([] : List TranscriptChunkModel)) chunks
        with e | final
      · rw [hf] at h
        cases h
      · rw [hf] at h
        injection h with h
        subst h
        rw [flatten_filter_pos]
        have hp := foldlM_bucketStep_perm _ _ chunks _ final hf
        rw [flatten_replicate_nil, List.append_nil] at hp
        exact hp

/-! ### C2 -/

/-- C2: on every non-empty chunk list on which bucketing succeeds, the
returned buckets are a permutation-partition of the input: their
concatenation is a permutation of the input chunk list (so no chunk is
lost and none is duplicated across buckets), and in particular the bucket
sizes sum to the input length. -/
theorem C2_bucketing_conserves_chunks (chunks : List TranscriptChunkModel)
    (split_num : Nat) (buckets : List (List TranscriptChunkModel))
    (_hne : chunks ≠ [])
    (h : divideChunksByTime chunks split_num = .ok buckets) :
    List.Perm buckets.flatten chunks ∧
    (buckets.map List.length).sum = chunks.length := by
  have hp := divide_ok_perm chunks split_num buckets h
  exact ⟨hp, by rw [← List.length_flatten, hp.length_eq]⟩

/-- Witness for C2 on the ten-chunk scenario input. -/
theorem C2_bucketing_conserves_chunks_witness :
    List.Perm buckets5.flatten chunks10 ∧
    (buckets5.map List.length).sum = chunks10.length :=
  C2_bucketing_conserves_chunks chunks10 5 buckets5
    (by simp [chunks10]) (by with_unfolding_all rfl)

end YTS

namespace YTS

/-! ### Bucketing: success and failure at the boundary -/

theorem bucketStep_ok_of (split_num : Nat) (delta : Rat)
    (b : List (List TranscriptChunkModel)) (tc : TranscriptChunkModel)
    (hd : 1 ≤ delta) (hst : 0 ≤ tc.start) (hlen : split_num ≤ b.length) :
    ∃ b', bucketStep split_num delta b tc = .ok b' ∧ split_num ≤ b'.length := by
  have hdpos : (0 : Rat) < delta := lt_of_lt_of_le zero_lt_one hd
  have hd0 : delta ≠ 0 := hdpos.ne'
  have hidx0 : 0 ≤ assignedIndex split_num delta tc.start := by
    unfold assignedIndex
    dsimp only []
    have hfl : 0 ≤ Int.floor (tc.start / delta) :=
      Int.floor_nonneg.2 (div_nonneg hst (le_of_lt hdpos))
    split
    · exact hfl
    · exact Int.natCast_nonneg split_num
  have hidxle : assignedIndex split_num delta tc.start ≤ (split_num : Int) := by
    unfold assignedIndex
    dsimp only []
    split
    · omega
    · exact le_refl _
  unfold bucketStep
  rw [if_neg hd0]
  simp only []
  set idx : Int := assignedIndex split_num delta tc.start with hidx
  set b2 := if (b.length : Int) < idx + 1 then b ++ [[]] else b with hb2
  have hblen : b.length ≤ b2.length ∧ idx.toNat < b2.length := by
    by_cases hg : (b.length : Int) < idx + 1
    · have : b2 = b ++ [[]] := by rw [hb2, if_pos hg]
      rw [this]
      simp only [List.length_append, List.length_cons, List.length_nil]
      have hc : (split_num : Int) ≤ (b.length : Int) := by exact_mod_cast hlen
      omega
    · have : b2 = b := by rw [hb2, if_neg hg]
      rw [this]
      omega
  set j : Int := if 0 ≤ idx then idx else idx + (b2.length : Int) with hj
  have hjidx : j = idx := by rw [hj, if_pos hidx0]
  have hcond : 0 ≤ j ∧ j.toNat < b2.length := by
    rw [hjidx]
    exact ⟨hidx0, hblen.2⟩
  rw [dif_pos hcond]
  refine ⟨_, rfl, ?_⟩
  rw [List.length_set]
  exact le_trans hlen hblen.1

theorem foldlM_bucketStep_ok (split_num : Nat) (delta : Rat) (hd : 1 ≤ delta) :
    ∀ (l : List TranscriptChunkModel) (init : List (List TranscriptChunkModel)),
    (∀ c ∈ l, 0 ≤ c.start) → split_num ≤ init.length →
    ∃ final, List.foldlM (bucketStep split_num delta) init l = .ok final := by
  intro l
  induction l with
  | nil => intro init _ _; exact ⟨init, rfl⟩
  | cons c cs ih =>
    intro init hnn hlen
    obtain ⟨b1, hb1, hlen1⟩ :=
      bucketStep_ok_of split_num delta init c hd (hnn c (by simp)) hlen
    obtain ⟨final, hf⟩ := ih b1 (fun x hx => hnn x (by simp [hx])) hlen1
    refine ⟨final, ?_⟩
    rw [List.foldlM_cons, hb1]
    exact hf

theorem divide_zero_delta (chunks : List TranscriptChunkModel) (split_num : Nat)
    (last : TranscriptChunkModel)
    (hz : split_num ≠ 0) (hlast : chunks.getLast? = some last)
    (hfl : Int.floor ((last.start + last.duration) / (split_num : Rat)) = 0) :
    divideChunksByTime chunks split_num = .error "ZeroDivisionError" := by
  unfold divideChunksByTime
  rw [hlast]
  dsimp only []
  rw [if_neg hz, hfl]
  cases chunks with
  | nil => simp at hlast
  | cons c cs =>
    rw [List.foldlM_cons]
    have hzero : bucketStep split_num ((0 : Int) : Rat)
        (List.replicate split_num []) c = .error "ZeroDivisionError" := by
      unfold bucketStep
      rw [if_pos (by norm_num)]
    rw [hzero]
    rfl

theorem divide_isOk_iff (chunks : List TranscriptChunkModel) (split_num : Nat)
    (last : TranscriptChunkModel)
    (hs : 1 ≤ split_num)
    (hnn : ∀ c ∈ chunks, 0 ≤ c.start ∧ 0 ≤ c.duration)
    (hlast : chunks.getLast? = some last) :
    ((divideChunksByTime chunks split_num).isOk = true ↔
      1 ≤ Int.floor ((last.start + last.duration) / (split_num : Rat))) := by
  have hz : split_num ≠ 0 := by omega
  have hmem : last ∈ chunks := by
    obtain ⟨hne, heq⟩ := List.mem_getLast?_eq_getLast (Option.mem_def.mpr hlast)
    rw [heq]
    exact List.getLast_mem hne
  have htot : 0 ≤ last.start + last.duration :=
    add_nonneg (hnn last hmem).1 (hnn last hmem).2
  have hfl0 : 0 ≤ Int.floor ((last.start + last.duration) / (split_num : Rat)) :=
    Int.floor_nonneg.2 (div_nonneg htot (by positivity))
  constructor
  · intro hok
    by_contra hlt
    push_neg at hlt
    have hfl : Int.floor ((last.start + last.duration) / (split_num : Rat)) = 0 := by
      omega
    rw [divide_zero_delta chunks split_num last hz hlast hfl] at hok
    simp [Except.isOk, Except.toBool] at hok
  · intro hge
    have hdel : (1 : Rat) ≤
        ((Int.floor ((last.start + last.duration) / (split_num : Rat)) : Int) : Rat) := by
      exact_mod_cast hge
    obtain ⟨final, hf⟩ := foldlM_bucketStep_ok split_num _ hdel chunks
      (List.replicate split_num []) (fun c hc => (hnn c hc).1)
      (by rw [List.length_replicate])
    unfold divideChunksByTime
    rw [hlast]
    dsimp only []
    rw [if_neg hz, hf]
    rfl

/-! ### C9 -/

/-- C9: bucketing is partial exactly at its boundary.  With `split_num ≥ 1`
and nonnegative chunk times: the empty chunk list raises the out-of-bounds
error of `chunks[-1]`; a non-empty list whose
`floor(total_time / split_num)` is zero raises the division-by-zero error
of `start // delta`; and the call returns normally precisely when the list
is non-empty and `floor(total_time / split_num) ≥ 1`. -/
theorem C9_bucketing_partiality (chunks : List TranscriptChunkModel)
    (split_num : Nat) (hs : 1 ≤ split_num)
    (hnn : ∀ c ∈ chunks, 0 ≤ c.start ∧ 0 ≤ c.duration) :
    (chunks = [] → divideChunksByTime chunks split_num = .error "IndexError") ∧
    (∀ last, chunks.getLast? = some last →
      (Int.floor ((last.start + last.duration) / (split_num : Rat)) = 0 →
        divideChunksByTime chunks split_num = .error "ZeroDivisionError") ∧
      ((divideChunksByTime chunks split_num).isOk = true ↔
        1 ≤ Int.floor ((last.start + last.duration) / (split_num : Rat)))) := by
  constructor
  · intro h
    subst h
    rfl
  · intro last hlast
    refine ⟨divide_zero_delta chunks split_num last (by omega) hlast, ?_⟩
    exact divide_isOk_iff chunks split_num last hs hnn hlast

/-- Witness for C9 on the one-chunk list with total time 2 and
`split_num = 5` (bucket width `floor(2/5) = 0`). -/
theorem C9_bucketing_partiality_witness :
    (([mkChunk 0 1 1] : List TranscriptChunkModel) = [] →
      divideChunksByTime [mkChunk 0 1 1] 5 = .error "IndexError") ∧
    (∀ last, ([mkChunk 0 1 1] : List TranscriptChunkModel).getLast? = some last →
      (Int.floor ((last.start + last.duration) / (5 : Rat)) = 0 →
        divideChunksByTime [mkChunk 0 1 1] 5 = .error "ZeroDivisionError") ∧
      ((divideChunksByTime [mkChunk 0 1 1] 5).isOk = true ↔
        1 ≤ Int.floor ((last.start + last.duration) / (5 : Rat)))) :=
  C9_bucketing_partiality [mkChunk 0 1 1] 5 (by norm_num)
    (by intro c hc; simp [mkChunk] at hc; subst hc; constructor <;> norm_num)

end YTS

namespace YTS

/-! ### Bucketing: exact characterization when no index overflows -/

theorem bucketStep_no_overflow (split_num : Nat) (delta : Rat) (hd : delta ≠ 0)
    (pre : List TranscriptChunkModel) (c : TranscriptChunkModel)
    (h0 : 0 ≤ assignedIndex split_num delta c.start)
    (h1 : assignedIndex split_num delta c.start < (split_num : Int)) :
    bucketStep split_num delta
      ((List.range split_num).map
        (fun (j : Nat) => pre.filter
          (fun x => decide (assignedIndex split_num delta x.start = (j : Int))))) c
      = .ok ((List.range split_num).map
        (fun (j : Nat) => (pre ++ [c]).filter
          (fun x => decide (assignedIndex split_num delta x.start = (j : Int))))) := by
  unfold bucketStep
  rw [if_neg hd]
  dsimp only []
  split
  next hsign =>
    split
    next hgrow =>
      exfalso
      simp only [List.length_map, List.length_range] at hgrow
      omega
    next hgrow =>
      split
      next hcnd =>
        congr 1
        apply List.ext_getElem
        · simp
        · intro k hk1 hk2
          simp only [List.length_set, List.length_map, List.length_range] at hk1 hk2
          rw [List.getElem_set]
          simp only [List.getElem_map, List.getElem_range]
          rw [List.filter_append, List.filter_singleton]
          by_cases hke : (assignedIndex split_num delta c.start).toNat = k
          · rw [if_pos hke]
            rw [List.get_of_eq (if_neg hgrow)]
            simp only [List.get_eq_getElem, List.getElem_map, List.getElem_range]
            rw [hke]
            have hpj : decide (assignedIndex split_num delta c.start = (k : Int)) = true := by
              simp only [decide_eq_true_eq]
              omega
            rw [hpj]
            simp
          · rw [if_neg hke]
            have hpj : decide (assignedIndex split_num delta c.start = (k : Int)) = false := by
              simp only [decide_eq_false_iff_not]
              omega
            rw [hpj]
            simp
      next hcnd =>
        exfalso
        apply hcnd
        refine ⟨h0, ?_⟩
        simp only [List.length_map, List.length_range]
        omega
  next hsign => exact absurd h0 hsign

theorem foldlM_no_overflow (split_num : Nat) (delta : Rat) (hd : delta ≠ 0) :
    ∀ (l pre : List TranscriptChunkModel),
    (∀ c ∈ l, 0 ≤ assignedIndex split_num delta c.start ∧
      assignedIndex split_num delta c.start < (split_num : Int)) →
    List.foldlM (bucketStep split_num delta)
      ((List.range split_num).map
        (fun (j : Nat) => pre.filter
          (fun x => decide (assignedIndex split_num delta x.start = (j : Int))))) l
      = .ok ((List.range split_num).map
        (fun (j : Nat) => (pre ++ l).filter
          (fun x => decide (assignedIndex split_num delta x.start = (j : Int))))) := by
  intro l
  induction l with
  | nil =>
    intro pre _
    rw [List.append_nil]
    rfl
  | cons c cs ih =>
    intro pre hb
    rw [List.foldlM_cons]
    rw [bucketStep_no_overflow split_num delta hd pre c
      (hb c (by simp)).1 (hb c (by simp)).2]
    have hcs := ih (pre ++ [c]) (fun x hx => hb x (by simp [hx]))
    rw [List.append_assoc, List.singleton_append] at hcs
    exact hcs

theorem divide_no_overflow (chunks : List TranscriptChunkModel) (split_num : Nat)
    (last : TranscriptChunkModel) (delta : Rat)
    (hlast : chunks.getLast? = some last) (hz : split_num ≠ 0)
    (hδ : delta = ((Int.floor ((last.start + last.duration) / (split_num : Rat)) : Int) : Rat))
    (hd : delta ≠ 0)
    (hb : ∀ c ∈ chunks, 0 ≤ assignedIndex split_num delta c.start ∧
      assignedIndex split_num delta c.start < (split_num : Int)) :
    divideChunksByTime chunks split_num
      = .ok (((List.range split_num).map
          (fun (j : Nat) => chunks.filter
            (fun x => decide (assignedIndex split_num delta x.start = (j : Int))))).filter
          (fun b => b.length > 0)) := by
  unfold divideChunksByTime
  rw [hlast]
  dsimp only []
  rw [if_neg hz]
  rw [← hδ]
  have hinit : (List.replicate split_num ([] : List TranscriptChunkModel))
      = (List.range split_num).map
        (fun (j : Nat) => ([] : List TranscriptChunkModel).filter
          (fun x => decide (assignedIndex split_num delta x.start = (j : Int)))) := by
    simp [List.filter_nil, List.map_const']
  rw [hinit, foldlM_no_overflow split_num delta hd chunks [] hb]
  rfl

end YTS

namespace YTS

/-! ### C3 -/

/-- C3: for ten chunks spanning start times 0..90s (total time 90,
every start in `[0, 90)`, every 18-second band inhabited), bucketing with
`split_num = 5` returns exactly 5 buckets; the bucket sizes sum to 10; the
buckets partition the input without loss or duplication (their
concatenation is a permutation of the input); and the j-th bucket covers
exactly the disjoint start-time range `[18j, 18(j+1))`. -/
theorem C3_ten_chunk_scenario (chunks : List TranscriptChunkModel)
    (last : TranscriptChunkModel)
    (hlen : chunks.length = 10)
    (hlast : chunks.getLast? = some last)
    (htot : last.start + last.duration = 90)
    (hr : ∀ c ∈ chunks, 0 ≤ c.start ∧ c.start < 90)
    (hcov : ∀ j : Nat, j < 5 →
      ∃ c ∈ chunks, 18 * (j : Rat) ≤ c.start ∧ c.start < 18 * ((j : Rat) + 1)) :
    ∃ buckets, divideChunksByTime chunks 5 = .ok buckets ∧
      buckets.length = 5 ∧
      (buckets.map List.length).sum = 10 ∧
      List.Perm buckets.flatten chunks ∧
      (∀ (j : Nat) (hj : j < buckets.length), ∀ c ∈ buckets.get ⟨j, hj⟩,
        18 * (j : Rat) ≤ c.start ∧ c.start < 18 * ((j : Rat) + 1)) := by
  have h18 : (0 : Rat) < 18 := by norm_num
  have hδval : ((Int.floor ((last.start + last.duration) / ((5 : Nat) : Rat)) : Int) : Rat)
      = 18 := by
    rw [htot]
    have h1 : (90 : Rat) / ((5 : Nat) : Rat) = ((18 : Int) : Rat) := by norm_num
    rw [h1, Int.floor_intCast]
    norm_num
  have hidx : ∀ c ∈ chunks, assignedIndex 5 18 c.start = Int.floor (c.start / 18) ∧
      0 ≤ assignedIndex 5 18 c.start ∧ assignedIndex 5 18 c.start < ((5 : Nat) : Int) := by
    intro c hc
    have h0 : 0 ≤ Int.floor (c.start / 18) :=
      Int.floor_nonneg.2 (div_nonneg (hr c hc).1 (le_of_lt h18))
    have h5 : Int.floor (c.start / 18) < 5 := by
      rw [Int.floor_lt]
      rw [div_lt_iff₀ h18]
      push_cast
      norm_num
      exact (hr c hc).2
    have heq : assignedIndex 5 18 c.start = Int.floor (c.start / 18) := by
      unfold assignedIndex
      dsimp only []
      rw [if_pos (by exact_mod_cast h5)]
    refine ⟨heq, heq ▸ h0, heq ▸ (by exact_mod_cast h5)⟩
  have hb : ∀ c ∈ chunks, 0 ≤ assignedIndex 5 18 c.start ∧
      assignedIndex 5 18 c.start < ((5 : Nat) : Int) := by
    intro c hc
    exact ⟨(hidx c hc).2.1, (hidx c hc).2.2⟩
  have hdivide := divide_no_overflow chunks 5 last 18 hlast (by norm_num)
    hδval.symm (by norm_num) hb
  have hmemidx : ∀ (j : Nat), j < 5 → ∀ c ∈ chunks,
      (decide (assignedIndex 5 18 c.start = (j : Int)) = true ↔
        (18 * (j : Rat) ≤ c.start ∧ c.start < 18 * ((j : Rat) + 1))) := by
    intro j hj c hc
    rw [decide_eq_true_eq, (hidx c hc).1]
    rw [Int.floor_eq_iff]
    constructor
    · intro ⟨ha, hb'⟩
      constructor
      · rw [le_div_iff₀ h18] at ha
        calc 18 * (j : Rat) = (j : Rat) * 18 := by ring
          _ ≤ c.start := by exact_mod_cast ha
      · rw [div_lt_iff₀ h18] at hb'
        calc c.start < (((j : Int) : Rat) + 1) * 18 := hb'
          _ = 18 * ((j : Rat) + 1) := by push_cast; ring
    · intro ⟨ha, hb'⟩
      constructor
      · rw [le_div_iff₀ h18]
        calc ((j : Int) : Rat) * 18 = 18 * (j : Rat) := by push_cast; ring
          _ ≤ c.start := ha
      · rw [div_lt_iff₀ h18]
        calc c.start < 18 * ((j : Rat) + 1) := hb'
          _ = (((j : Int) : Rat) + 1) * 18 := by push_cast; ring
  have hall : ∀ b ∈ (List.range 5).map
      (fun (j : Nat) => chunks.filter
        (fun x => decide (assignedIndex 5 18 x.start = (j : Int)))),
      b.length > 0 := by
    intro b hb'
    simp only [List.mem_map, List.mem_range] at hb'
    obtain ⟨j, hj5, rfl⟩ := hb'
    obtain ⟨c, hc, hcr⟩ := hcov j hj5
    have hcm : c ∈ chunks.filter
        (fun x => decide (assignedIndex 5 18 x.start = (j : Int))) :=
      List.mem_filter.2 ⟨hc, (hmemidx j hj5 c hc).2 hcr⟩
    exact List.length_pos.2 (List.ne_nil_of_mem hcm)
  have hfilter : (((List.range 5).map
      (fun (j : Nat) => chunks.filter
        (fun x => decide (assignedIndex 5 18 x.start = (j : Int))))).filter
        (fun b => b.length > 0))
      = (List.range 5).map
        (fun (j : Nat) => chunks.filter
          (fun x => decide (assignedIndex 5 18 x.start = (j : Int)))) := by
    apply List.filter_eq_self.2
    intro b hb'
    simpa using hall b hb'
  rw [hfilter] at hdivide
  refine ⟨_, hdivide, ?_, ?_, ?_, ?_⟩
  · simp
  · have hperm := divide_ok_perm chunks 5 _ hdivide
    rw [← List.length_flatten, hperm.length_eq, hlen]
  · exact divide_ok_perm chunks 5 _ hdivide
  · intro j hj c hc
    simp only [List.length_map, List.length_range] at hj
    rw [List.get_eq_getElem, List.getElem_map, List.getElem_range] at hc
    have := List.mem_filter.1 hc
    exact (hmemidx j hj c this.1).1 this.2

/-- Witness for C3 on the concrete ten-chunk input `chunks10`. -/
theorem C3_ten_chunk_scenario_witness :
    ∃ buckets, divideChunksByTime chunks10 5 = .ok buckets ∧
      buckets.length = 5 ∧
      (buckets.map List.length).sum = 10 ∧
      List.Perm buckets.flatten chunks10 ∧
      (∀ (j : Nat) (hj : j < buckets.length), ∀ c ∈ buckets.get ⟨j, hj⟩,
        18 * (j : Rat) ≤ c.start ∧ c.start < 18 * ((j : Rat) + 1)) := by
  apply C3_ten_chunk_scenario chunks10 (mkChunk 9 81 9)
  · rfl
  · rfl
  · norm_num [mkChunk]
  · intro c hc
    simp only [chunks10, List.mem_cons, List.not_mem_nil, or_false] at hc
    rcases hc with rfl | rfl | rfl | rfl | rfl | rfl | rfl | rfl | rfl | rfl <;>
      constructor <;> norm_num [mkChunk]
  · intro j hj
    interval_cases j
    · exact ⟨mkChunk 0 0 9, by simp [chunks10], by norm_num [mkChunk]⟩
    · exact ⟨mkChunk 2 18 9, by simp [chunks10], by norm_num [mkChunk]⟩
    · exact ⟨mkChunk 4 36 9, by simp [chunks10], by norm_num [mkChunk]⟩
    · exact ⟨mkChunk 6 54 9, by simp [chunks10], by norm_num [mkChunk]⟩
    · exact ⟨mkChunk 8 72 9, by simp [chunks10], by norm_num [mkChunk]⟩

end YTS

namespace YTS

/-! ### JSON: sizes and parsing helper lemmas -/

mutual

/-- Node count of a JSON document; a fuel bound for `parseValue`. -/
def sizeJ : Json → Nat
  | .str _ => 1
  | .arr js => 1 + sizeA js
  | .obj kvs => 1 + sizeO kvs

/-- Node count of an array tail. -/
def sizeA : List Json → Nat
  | [] => 0
  | j :: js => 1 + sizeJ j + sizeA js

/-- Node count of an object tail. -/
def sizeO : List (String × Json) → Nat
  | [] => 0
  | kv :: kvs => 1 + sizeJ kv.2 + sizeO kvs

end

theorem sizeJ_pos (j : Json) : 1 ≤ sizeJ j := by
  cases j <;> simp [sizeJ]

theorem hexVal_hexDigit (n : Nat) (h : n < 16) : hexVal (hexDigit n) = some n := by
  interval_cases n <;> decide

theorem skipWs_append (ws : List Char) (l : List Char)
    (h : ∀ c ∈ ws, isJsonWs c = true) : skipWs (ws ++ l) = skipWs l := by
  induction ws with
  | nil => rfl
  | cons c ws ih =>
    have hc : isJsonWs c = true := h c (by simp)
    rw [List.cons_append]
    unfold skipWs
    rw [List.dropWhile_cons, hc]
    exact ih (fun x hx => h x (by simp [hx]))

theorem skipWs_cons_neg (c : Char) (l : List Char) (h : isJsonWs c = false) :
    skipWs (c :: l) = c :: l := by
  unfold skipWs
  rw [List.dropWhile_cons, h]
  simp

theorem parseStringAux_roundtrip : ∀ (s : List Char) (rest : List Char),
    parseStringAux ((s.map escapeChar).flatten ++ '"' :: rest) = some (s, rest) := by
  intro s
  induction s with
  | nil =>
    intro rest
    rw [parseStringAux.eq_def]
    simp
  | cons c s ih =>
    intro rest
    rw [List.map_cons, List.flatten_cons, List.append_assoc]
    by_cases h1 : c = '"'
    · subst h1
      rw [show escapeChar '"' = ['\\', '"'] from rfl]
      rw [List.cons_append, List.cons_append, List.nil_append]
      rw [parseStringAux.eq_def]
      simp [unescapeChar, ih]
    · by_cases h2 : c = '\\'
      · subst h2
        rw [show escapeChar '\\' = ['\\', '\\'] from rfl]
        rw [List.cons_append, List.cons_append, List.nil_append]
        rw [parseStringAux.eq_def]
        simp [unescapeChar, ih]
      · by_cases h3 : c = '\x08'
        · subst h3
          rw [show escapeChar '\x08' = ['\\', 'b'] from rfl]
          rw [List.cons_append, List.cons_append, List.nil_append]
          rw [parseStringAux.eq_def]
          simp [unescapeChar, ih]
        · by_cases h4 : c = '\x09'
          · subst h4
            rw [show escapeChar '\x09' = ['\\', 't'] from rfl]
            rw [List.cons_append, List.cons_append, List.nil_append]
            rw [parseStringAux.eq_def]
            simp [unescapeChar, ih]
          · by_cases h5 : c = '\x0a'
            · subst h5
              rw [show escapeChar '\x0a' = ['\\', 'n'] from rfl]
              rw [List.cons_append, List.cons_append, List.nil_append]
              rw [parseStringAux.eq_def]
              simp [unescapeChar, ih]
            · by_cases h6 : c = '\x0c'
              · subst h6
                rw [show escapeChar '\x0c' = ['\\', 'f'] from rfl]
                rw [List.cons_append, List.cons_append, List.nil_append]
                rw [parseStringAux.eq_def]
                simp [unescapeChar, ih]
              · by_cases h7 : c = '\x0d'
                · subst h7
                  rw [show escapeChar '\x0d' = ['\\', 'r'] from rfl]
                  rw [List.cons_append, List.cons_append, List.nil_append]
                  rw [parseStringAux.eq_def]
                  simp [unescapeChar, ih]
                · by_cases h8 : c.val < 0x20
                  · have hes : escapeChar c
                        = ['\\', 'u', '0', '0',
                           hexDigit (c.toNat / 16), hexDigit (c.toNat % 16)] := by
                      unfold escapeChar
                      rw [if_neg h1, if_neg h2, if_neg h3, if_neg h4, if_neg h5,
                        if_neg h6, if_neg h7, if_pos h8]
                    rw [hes]
                    have h8' : c.toNat < 32 := h8
                    have hd1 : hexVal (hexDigit (c.toNat / 16)) = some (c.toNat / 16) :=
                      hexVal_hexDigit _ (by omega)
                    have hd2 : hexVal (hexDigit (c.toNat % 16)) = some (c.toNat % 16) :=
                      hexVal_hexDigit _ (by omega)
                    simp only [List.cons_append, List.nil_append]
                    have hv0 : hexVal '0' = some 0 := by decide
                    have hcode : ((0 * 16 + 0) * 16 + c.toNat / 16) * 16 + c.toNat % 16
                        = c.toNat := by omega
                    have hcode2 : c.toNat / 16 * 16 + c.toNat % 16 = c.toNat := by omega
                    rw [parseStringAux.eq_def]
                    simp [hv0, hd1, hd2, hcode, hcode2, Char.ofNat_toNat, ih]
                  · have hes : escapeChar c = [c] := by
                      unfold escapeChar
                      rw [if_neg h1, if_neg h2, if_neg h3, if_neg h4, if_neg h5,
                        if_neg h6, if_neg h7, if_neg h8]
                    rw [hes]
                    simp only [List.cons_append, List.nil_append]
                    rw [parseStringAux.eq_def]
                    simp [h1, h2, ih]

end YTS

namespace YTS

theorem dumpsL_head (j : Json) : ∃ cs,
    dumpsL j = '"' :: cs ∨ dumpsL j = '[' :: cs ∨ dumpsL j = '\x7b' :: cs := by
  cases j with
  | str s =>
    refine ⟨(s.data.map escapeChar).flatten ++ ['"'], .inl ?_⟩
    simp [dumpsL, dumpStringL]
  | arr js =>
    refine ⟨dumpsArrL js ++ [']'], .inr (.inl ?_)⟩
    simp [dumpsL]
  | obj kvs =>
    refine ⟨dumpsObjL kvs ++ ['\x7d'], .inr (.inr ?_)⟩
    simp [dumpsL]

theorem dumpsArrL_cons (j : Json) (js : List Json) :
    ∃ t, dumpsArrL (j :: js) = dumpsL j ++ t := by
  cases js with
  | nil => exact ⟨[], by simp [dumpsArrL]⟩
  | cons j2 js => exact ⟨',' :: ' ' :: dumpsArrL (j2 :: js), by simp [dumpsArrL]⟩

theorem dumpsObjL_cons (k : String) (v : Json) (kvs : List (String × Json)) :
    ∃ t, dumpsObjL ((k, v) :: kvs) = dumpStringL k ++ t := by
  cases kvs with
  | nil => exact ⟨':' :: ' ' :: dumpsL v, by simp [dumpsObjL]⟩
  | cons kv kvs =>
    exact ⟨':' :: ' ' :: (dumpsL v ++ ',' :: ' ' :: dumpsObjL (kv :: kvs)),
      by simp [dumpsObjL]⟩

end YTS

namespace YTS

/-- The printer-parser inverse property, by induction on parser fuel. -/
theorem parse_roundtrip : ∀ fuel : Nat,
    (∀ j ws rest, (∀ c ∈ ws, isJsonWs c = true) → sizeJ j ≤ fuel →
      parseValue fuel (ws ++ (dumpsL j ++ rest)) = some (j, rest)) ∧
    (∀ js ws rest, js ≠ [] → (∀ c ∈ ws, isJsonWs c = true) → sizeA js ≤ fuel →
      parseArrItems fuel (ws ++ (dumpsArrL js ++ ']' :: rest)) = some (js, rest)) ∧
    (∀ kvs ws rest, kvs ≠ [] → (∀ c ∈ ws, isJsonWs c = true) → sizeO kvs ≤ fuel →
      parseObjItems fuel (ws ++ (dumpsObjL kvs ++ '\x7d' :: rest)) = some (kvs, rest)) := by
  intro fuel
  induction fuel with
  | zero =>
    refine ⟨?_, ?_, ?_⟩
    · intro j ws rest _ hsz
      exact absurd hsz (by have := sizeJ_pos j; omega)
    · intro js ws rest hne _ hsz
      cases js with
      | nil => exact absurd rfl hne
      | cons j js => simp [sizeA] at hsz
    · intro kvs ws rest hne _ hsz
      cases kvs with
      | nil => exact absurd rfl hne
      | cons kv kvs => simp [sizeO] at hsz
  | succ fuel ih =>
    obtain ⟨ihV, ihA, ihO⟩ := ih
    refine ⟨?_, ?_, ?_⟩
    · -- parseValue
      intro j ws rest hws hsz
      rw [parseValue.eq_def]
      dsimp only []
      rw [skipWs_append ws _ hws]
      cases j with
      | str s =>
        rw [show dumpsL (.str s)
            = '"' :: ((s.data.map escapeChar).flatten ++ ['"']) from
          by simp [dumpsL, dumpStringL]]
        simp only [List.cons_append, List.append_assoc, List.singleton_append]
        rw [skipWs_cons_neg '"' _ (by decide)]
        simp [parseStringAux_roundtrip]
      | arr js =>
        cases js with
        | nil =>
          rw [show dumpsL (.arr []) = ['[', ']'] from by simp [dumpsL, dumpsArrL]]
          simp only [List.cons_append, List.nil_append]
          rw [skipWs_cons_neg '[' _ (by decide)]
          simp [skipWs, isJsonWs]
        | cons j' js =>
          obtain ⟨t, ht⟩ := dumpsArrL_cons j' js
          obtain ⟨cs, hc⟩ := dumpsL_head j'
          have hsz' : sizeA (j' :: js) ≤ fuel := by
            simp only [sizeJ] at hsz
            omega
          have harr := ihA (j' :: js) [] rest (by simp) (by simp) hsz'
          rw [List.nil_append] at harr
          rw [show dumpsL (.arr (j' :: js))
              = '[' :: (dumpsArrL (j' :: js) ++ [']']) from by simp [dumpsL]]
          simp only [List.cons_append, List.append_assoc, List.singleton_append]
          rw [skipWs_cons_neg '[' _ (by decide)]
          rcases hc with hc | hc | hc <;>
            simp only [ht, hc, List.cons_append, List.append_assoc,
              List.singleton_append] at harr ⊢ <;>
            simp [skipWs, isJsonWs, harr]
      | obj kvs =>
        cases kvs with
        | nil =>
          rw [show dumpsL (.obj []) = ['\x7b', '\x7d'] from by
            simp [dumpsL, dumpsObjL]]
          simp only [List.cons_append, List.nil_append]
          rw [skipWs_cons_neg '\x7b' _ (by decide)]
          simp [skipWs, isJsonWs]
        | cons kv kvs =>
          obtain ⟨k, v⟩ := kv
          obtain ⟨t, ht⟩ := dumpsObjL_cons k v kvs
          have hsz' : sizeO ((k, v) :: kvs) ≤ fuel := by
            simp only [sizeJ] at hsz
            omega
          have hobj := ihO ((k, v) :: kvs) [] rest (by simp) (by simp) hsz'
          rw [List.nil_append] at hobj
          rw [show dumpsL (.obj ((k, v) :: kvs))
              = '\x7b' :: (dumpsObjL ((k, v) :: kvs) ++ ['\x7d']) from by
            simp [dumpsL]]
          simp only [List.cons_append, List.append_assoc, List.singleton_append]
          rw [skipWs_cons_neg '\x7b' _ (by decide)]
          simp only [ht,
            show dumpStringL k
              = '"' :: ((k.data.map escapeChar).flatten ++ ['"']) from by
              simp [dumpStringL],
            List.cons_append, List.append_assoc, List.singleton_append] at hobj ⊢
          simp only [List.nil_append] at hobj
          simp [skipWs, isJsonWs, hobj]
    · -- parseArrItems
      intro js ws rest hne hws hsz
      cases js with
      | nil => exact absurd rfl hne
      | cons j js =>
        rw [parseArrItems.eq_def]
        dsimp only []
        cases js with
        | nil =>
          have hszj : sizeJ j ≤ fuel := by
            simp only [sizeA] at hsz
            omega
          have hv := ihV j ws (']' :: rest) hws hszj
          rw [show dumpsArrL [j] = dumpsL j from by simp [dumpsArrL]]
          rw [hv]
          simp [skipWs, isJsonWs]
        | cons j2 js =>
          have hszj : sizeJ j ≤ fuel := by
            simp only [sizeA] at hsz
            omega
          have hsza : sizeA (j2 :: js) ≤ fuel := by
            simp only [sizeA] at hsz ⊢
            omega
          rw [show dumpsArrL (j :: j2 :: js)
              = dumpsL j ++ ',' :: ' ' :: dumpsArrL (j2 :: js) from by
            simp [dumpsArrL]]
          rw [show (ws ++ ((dumpsL j ++ ',' :: ' ' :: dumpsArrL (j2 :: js)) ++ ']' :: rest))
              = ws ++ (dumpsL j ++ (',' :: ' ' :: (dumpsArrL (j2 :: js) ++ ']' :: rest))) from by
            simp [List.append_assoc]]
          rw [ihV j ws _ hws hszj]
          dsimp only []
          have harr := ihA (j2 :: js) [' '] rest (by simp) (by decide) hsza
          rw [show ([' '] ++ (dumpsArrL (j2 :: js) ++ ']' :: rest))
              = ' ' :: (dumpsArrL (j2 :: js) ++ ']' :: rest) from by simp] at harr
          simp [skipWs, isJsonWs, harr]
    · -- parseObjItems
      intro kvs ws rest hne hws hsz
      cases kvs with
      | nil => exact absurd rfl hne
      | cons kv kvs =>
        obtain ⟨k, v⟩ := kv
        rw [parseObjItems.eq_def]
        dsimp only []
        rw [skipWs_append ws _ hws]
        have hszv : sizeJ v ≤ fuel := by
          simp only [sizeO] at hsz
          omega
        have hk : String.mk k.data = k := rfl
        cases kvs with
        | nil =>
          rw [show dumpsObjL [(k, v)]
              = dumpStringL k ++ ':' :: ' ' :: dumpsL v from by simp [dumpsObjL]]
          rw [show dumpStringL k
              = '"' :: ((k.data.map escapeChar).flatten ++ ['"']) from by
            simp [dumpStringL]]
          simp only [List.cons_append, List.append_assoc, List.singleton_append]
          rw [skipWs_cons_neg '"' _ (by decide)]
          have hv := ihV v [' '] ('\x7d' :: rest) (by decide) hszv
          rw [show ([' '] ++ (dumpsL v ++ '\x7d' :: rest))
              = ' ' :: (dumpsL v ++ '\x7d' :: rest) from by simp] at hv
          simp [skipWs, isJsonWs, parseStringAux_roundtrip, hv, hk]
        | cons kv2 kvs =>
          have hszo : sizeO (kv2 :: kvs) ≤ fuel := by
            simp only [sizeO] at hsz ⊢
            omega
          rw [show dumpsObjL ((k, v) :: kv2 :: kvs)
              = dumpStringL k ++ ':' :: ' ' ::
                (dumpsL v ++ ',' :: ' ' :: dumpsObjL (kv2 :: kvs)) from by
            simp [dumpsObjL]]
          rw [show dumpStringL k
              = '"' :: ((k.data.map escapeChar).flatten ++ ['"']) from by
            simp [dumpStringL]]
          simp only [List.cons_append, List.append_assoc, List.singleton_append]
          rw [skipWs_cons_neg '"' _ (by decide)]
          have hv := ihV v [' ']
            (',' :: ' ' :: (dumpsObjL (kv2 :: kvs) ++ '\x7d' :: rest)) (by decide) hszv
          rw [show ([' '] ++ (dumpsL v ++ ',' :: ' ' :: (dumpsObjL (kv2 :: kvs) ++ '\x7d' :: rest)))
              = ' ' :: (dumpsL v ++ (',' :: ' ' :: (dumpsObjL (kv2 :: kvs) ++ '\x7d' :: rest))) from by
            simp] at hv
          have hobj := ihO (kv2 :: kvs) [' '] rest (by simp) (by decide) hszo
          rw [show ([' '] ++ (dumpsObjL (kv2 :: kvs) ++ '\x7d' :: rest))
              = ' ' :: (dumpsObjL (kv2 :: kvs) ++ '\x7d' :: rest) from by simp] at hobj
          simp [skipWs, isJsonWs, parseStringAux_roundtrip, hv, hobj, hk]

end YTS

namespace YTS

mutual

theorem sizeJ_le_dumpsL : ∀ j : Json, sizeJ j ≤ (dumpsL j).length
  | .str s => by
    simp only [sizeJ, dumpsL, dumpStringL, List.length_cons, List.length_append]
    omega
  | .arr js => by
    have h := sizeA_le_dumpsArrL js
    simp only [sizeJ, dumpsL, List.length_cons, List.length_append] at *
    omega
  | .obj kvs => by
    have h := sizeO_le_dumpsObjL kvs
    simp only [sizeJ, dumpsL, List.length_cons, List.length_append] at *
    omega

theorem sizeA_le_dumpsArrL : ∀ js : List Json, sizeA js ≤ (dumpsArrL js).length + 1
  | [] => by
    simp [sizeA]
  | [j] => by
    have h := sizeJ_le_dumpsL j
    simp only [sizeA, dumpsArrL, List.length_cons, List.length_append] at *
    omega
  | j :: j2 :: js => by
    have h1 := sizeJ_le_dumpsL j
    have h2 := sizeA_le_dumpsArrL (j2 :: js)
    simp only [sizeA, dumpsArrL, List.length_cons, List.length_append] at *
    omega

theorem sizeO_le_dumpsObjL : ∀ kvs : List (String × Json),
    sizeO kvs ≤ (dumpsObjL kvs).length + 1
  | [] => by
    simp [sizeO]
  | [(k, v)] => by
    have h := sizeJ_le_dumpsL v
    simp only [sizeO, dumpsObjL, dumpStringL, List.length_cons,
      List.length_append] at *
    omega
  | (k, v) :: kv2 :: kvs => by
    have h1 := sizeJ_le_dumpsL v
    have h2 := sizeO_le_dumpsObjL (kv2 :: kvs)
    simp only [sizeO, dumpsObjL, dumpStringL, List.length_cons,
      List.length_append] at *
    omega

end

/-- `json.loads` is a left inverse of `json.dumps` on whole documents. -/
theorem jsonParse_dumps (j : Json) : jsonParse (jsonDumps j) = some j := by
  unfold jsonParse jsonDumps
  have hdata : (String.mk (dumpsL j)).data = dumpsL j := rfl
  have hlen : (String.mk (dumpsL j)).length = (dumpsL j).length := rfl
  rw [hdata, hlen]
  have hsz : sizeJ j ≤ (dumpsL j).length + 1 :=
    le_trans (sizeJ_le_dumpsL j) (by omega)
  have h := (parse_roundtrip ((dumpsL j).length + 1)).1 j [] [] (by simp) hsz
  rw [List.nil_append, List.append_nil] at h
  rw [h]
  simp [skipWs]

theorem allStr_map (l : List String) : allStr (l.map Json.str) = some l := by
  induction l with
  | nil => rfl
  | cons s l ih => simp [allStr, ih]

theorem decodeSummary_encodeSummary (r : SummaryRecord) :
    decodeSummary (encodeSummary r) = some r := by
  unfold decodeSummary encodeSummary jLookup
  simp [asStr, allStr_map]

end YTS

namespace YTS

/-! ### C6 -/

/-- C6: saving a summary record and loading it back round-trips.  Saving
under the video id's path replaces the previous file contents wholesale
with the JSON document of the record; `json.load` of that file returns
exactly the saved document, which decodes to a record equal to the one
saved; and every non-ASCII character (code point above `0x7f`) is written
literally by the serializer, not escaped. -/
theorem C6_store_roundtrip (fs : String → Option String) (dir vid : String)
    (r : SummaryRecord) (ch : Char) (hch : 0x7f < ch.toNat) :
    saveStore fs (summaryPath dir vid) (jsonDumps (encodeSummary r)) (summaryPath dir vid)
      = some (jsonDumps (encodeSummary r)) ∧
    loadStore (saveStore fs (summaryPath dir vid) (jsonDumps (encodeSummary r)))
      (summaryPath dir vid) = some (encodeSummary r) ∧
    decodeSummary (encodeSummary r) = some r ∧
    escapeChar ch = [ch] := by
  refine ⟨by simp [saveStore], ?_, decodeSummary_encodeSummary r, ?_⟩
  · unfold loadStore saveStore
    simp [jsonParse_dumps]
  · have h1 : ch ≠ '"' := fun h => by subst h; revert hch; decide
    have h2 : ch ≠ '\\' := fun h => by subst h; revert hch; decide
    have h3 : ch ≠ '\x08' := fun h => by subst h; revert hch; decide
    have h4 : ch ≠ '\x09' := fun h => by subst h; revert hch; decide
    have h5 : ch ≠ '\x0a' := fun h => by subst h; revert hch; decide
    have h6 : ch ≠ '\x0c' := fun h => by subst h; revert hch; decide
    have h7 : ch ≠ '\x0d' := fun h => by subst h; revert hch; decide
    have h8 : ¬ ch.val < 0x20 := by
      intro hlt
      have hlt' : ch.toNat < 32 := hlt
      omega
    unfold escapeChar
    rw [if_neg h1, if_neg h2, if_neg h3, if_neg h4, if_neg h5, if_neg h6,
      if_neg h7, if_neg h8]

/-- Witness for C6 on a record with Japanese (non-ASCII) text. -/
theorem C6_store_roundtrip_witness :
    saveStore (fun _ => none) (summaryPath "store" "vid0")
        (jsonDumps (encodeSummary ⟨"https://x", "タイトル", ["詳細一", "詳細二"], "要約"⟩))
        (summaryPath "store" "vid0")
      = some (jsonDumps (encodeSummary ⟨"https://x", "タイトル", ["詳細一", "詳細二"], "要約"⟩)) ∧
    loadStore (saveStore (fun _ => none) (summaryPath "store" "vid0")
        (jsonDumps (encodeSummary ⟨"https://x", "タイトル", ["詳細一", "詳細二"], "要約"⟩)))
      (summaryPath "store" "vid0")
      = some (encodeSummary ⟨"https://x", "タイトル", ["詳細一", "詳細二"], "要約"⟩) ∧
    decodeSummary (encodeSummary ⟨"https://x", "タイトル", ["詳細一", "詳細二"], "要約"⟩)
      = some ⟨"https://x", "タイトル", ["詳細一", "詳細二"], "要約"⟩ ∧
    escapeChar 'あ' = ['あ'] :=
  C6_store_roundtrip (fun _ => none) "store" "vid0"
    ⟨"https://x", "タイトル", ["詳細一", "詳細二"], "要約"⟩ 'あ' (by decide)

end YTS
